import Mathlib

/-!
Shallow embedding of the AkBack backtest core: the account ledger
(src/src/backtest/account.py), the order execution model
(src/src/backtest/engine.py), the portfolio runner
(src/src/backtest/runner.py) and the trading constants (src/src/config.py).

Modelling conventions: Python floats are modelled as exact rationals (ℚ),
Python ints as integers (ℤ), Python dicts keyed by symbol/date as
association lists in insertion order.  Python `int(x)` on a float is
truncation toward zero (`pyInt`); Python `//` on ints is floor division
(`Int.fdiv`).
-/

/-- Commission rate, src/src/config.py line 36 (`COMMISSION_RATE = 0.0003`). -/
def COMMISSION_RATE : ℚ := 3 / 10000

/-- Minimum commission, src/src/config.py line 37 (`MIN_COMMISSION = 5.0`). -/
def MIN_COMMISSION : ℚ := 5

/-- Stamp duty rate, src/src/config.py line 38 (`STAMP_DUTY = 0.0005`). -/
def STAMP_DUTY : ℚ := 5 / 10000

/-- Python `int(x)` applied to a numeric value: truncation toward zero. -/
def pyInt (x : ℚ) : ℤ := if x < 0 then -⌊-x⌋ else ⌊x⌋

/-- A per-symbol position, the values of `Account.positions`
(account.py line 8: `{symbol: {"total": 0, "sellable": 0}}`). -/
structure Position where
  total : ℤ
  sellable : ℤ
deriving DecidableEq

/-- Association-list lookup, modelling Python dict access (`d[k]` / `d.get(k)`;
`none` models `k not in d`). -/
def alookup {α β : Type} [DecidableEq α] : List (α × β) → α → Option β
  | [], _ => none
  | kv :: rest, k => if kv.1 = k then some kv.2 else alookup rest k

/-- Python dict value update `d[k] = f(d[k])`: keys and order unchanged. -/
def amodify {α β : Type} [DecidableEq α] (l : List (α × β)) (k : α) (f : β → β) :
    List (α × β) :=
  l.map (fun kv => if kv.1 = k then (kv.1, f kv.2) else kv)

/-- Python dict deletion `del d[k]`. -/
def aerase {α β : Type} [DecidableEq α] (l : List (α × β)) (k : α) : List (α × β) :=
  l.filter (fun kv => decide (kv.1 ≠ k))

/-- The ledger state of account.py's `Account.__init__` (lines 5-10).  The
`history` field of the Python class is never read or written by any of the
modelled operations, so it is omitted. -/
structure Account where
  initial_capital : ℚ
  cash : ℚ
  positions : List (String × Position)
  total_assets : ℚ
deriving DecidableEq

/-- `Account.__init__(initial_capital)`: cash and total assets start at the
initial endowment, positions empty. -/
def Account.init (initial_capital : ℚ) : Account :=
  { initial_capital := initial_capital
    cash := initial_capital
    positions := []
    total_assets := initial_capital }

/-- `Account._get_commission` (account.py lines 12-15): commission with a
minimum floor. -/
def get_commission (trade_amount : ℚ) : ℚ :=
  max (trade_amount * COMMISSION_RATE) MIN_COMMISSION

/-- `Account._get_stamp_duty` (account.py lines 17-19): stamp duty, charged by
`sell` only. -/
def get_stamp_duty (trade_amount : ℚ) : ℚ := trade_amount * STAMP_DUTY

/-- Direction of a trade, the `action` field of Python's `Order` and of the
trade-details dict. -/
inductive OrderAction
  | BUY
  | SELL
deriving DecidableEq

/-- Failure messages returned by `Account.buy` / `Account.sell` as
`(False, message, None)` triples. -/
inductive TradeError
  | invalidQuantity      -- "Quantity must be positive"
  | insufficientCash     -- "Insufficient cash: ..."
  | unknownSymbol        -- "Symbol not in portfolio"
  | insufficientSellable -- "Insufficient sellable quantity: ..."
deriving DecidableEq

/-- The `trade_details` dict returned on a successful buy/sell (account.py
lines 53-61 and 95-103).  `cash_amount` is the `total_cost` entry of a BUY
fill and the `net_revenue` entry of a SELL fill. -/
structure TradeDetails where
  symbol : String
  action : OrderAction
  price : ℚ
  quantity : ℤ
  commission : ℚ
  stamp_duty : ℚ
  cash_amount : ℚ
deriving DecidableEq

/-- Lines 47-48 of account.py: `if symbol not in self.positions:
self.positions[symbol] = {"total": 0, "sellable": 0}` — insert a fresh empty
position when the symbol is absent (Python dicts append new keys at the
end). -/
def ensurePos (ps : List (String × Position)) (s : String) : List (String × Position) :=
  match alookup ps s with
  | none => ps ++ [(s, ⟨0, 0⟩)]
  | some _ => ps

/-- `Account.buy` (account.py lines 28-62). -/
def Account.buy (a : Account) (symbol : String) (price : ℚ) (quantity : ℤ) :
    Except TradeError (Account × TradeDetails) :=
  if quantity ≤ 0 then .error .invalidQuantity
  else
    let trade_amount := price * (quantity : ℚ)
    let commission := get_commission trade_amount
    let total_cost := trade_amount + commission
    if a.cash < total_cost then .error .insufficientCash
    else
      let ps := amodify (ensurePos a.positions symbol) symbol
        (fun pos => ⟨pos.total + quantity, pos.sellable⟩)
      .ok ({ a with cash := a.cash - total_cost, positions := ps },
           ⟨symbol, .BUY, price, quantity, commission, 0, total_cost⟩)

/-- `Account.sell` (account.py lines 64-104). -/
def Account.sell (a : Account) (symbol : String) (price : ℚ) (quantity : ℤ) :
    Except TradeError (Account × TradeDetails) :=
  if quantity ≤ 0 then .error .invalidQuantity
  else
    match alookup a.positions symbol with
    | none => .error .unknownSymbol
    | some pos =>
      if pos.sellable < quantity then .error .insufficientSellable
      else
        let trade_amount := price * (quantity : ℚ)
        let commission := get_commission trade_amount
        let stamp_duty := get_stamp_duty trade_amount
        let net_revenue := trade_amount - commission - stamp_duty
        let ps0 := amodify a.positions symbol
          (fun p => ⟨p.total - quantity, p.sellable - quantity⟩)
        let ps := if pos.total - quantity = 0 then aerase ps0 symbol else ps0
        .ok ({ a with cash := a.cash + net_revenue, positions := ps },
             ⟨symbol, .SELL, price, quantity, commission, stamp_duty, net_revenue⟩)

/-- `Account.settle` (account.py lines 119-124): every held symbol's sellable
quantity is set to its total (T+1 unlock). -/
def Account.settle (a : Account) : Account :=
  { a with positions := a.positions.map (fun kv => (kv.1, ⟨kv.2.total, kv.2.total⟩)) }

/-- `Account.update_market_value` (account.py lines 106-117): recompute
`total_assets` from cash and the mark-to-market value of positions (missing
symbols priced at 0). -/
def Account.update_market_value (a : Account) (current_prices : List (String × ℚ)) :
    Account :=
  let market_value := a.positions.foldl
    (fun acc kv => acc + (kv.2.total : ℚ) * ((alookup current_prices kv.1).getD 0)) 0
  { a with total_assets := a.cash + market_value }

/-- `Account.get_max_buyable` (account.py lines 126-155).  `q1` and `q2` use
Python `int(...)` (truncation toward zero); the final rounding uses Python
`// 100 * 100` (floor division). -/
def Account.get_max_buyable (a : Account) (price : ℚ) : ℤ :=
  if price ≤ 0 then 0
  else
    let q1 := pyInt (a.cash / (price * (1 + COMMISSION_RATE)))
    let q2 := pyInt ((a.cash - MIN_COMMISSION) / price)
    let max_q := min q1 q2
    if max_q < 0 then 0
    else max_q.fdiv 100 * 100

/-- A ledger operation, for reasoning about sequences of buys, sells and
settles against one `Account`. -/
inductive LedgerOp
  | buy (symbol : String) (price : ℚ) (quantity : ℤ)
  | sell (symbol : String) (price : ℚ) (quantity : ℤ)
  | settle

/-- Whether an operation is a sell. -/
def LedgerOp.isSell : LedgerOp → Bool
  | .sell _ _ _ => true
  | _ => false

/-- Apply one operation to the ledger; a rejected buy/sell leaves the ledger
unchanged (the Python methods mutate nothing before their checks pass). -/
def applyOp (a : Account) : LedgerOp → Account
  | .buy s p q =>
      match a.buy s p q with
      | .ok (a', _) => a'
      | .error _ => a
  | .sell s p q =>
      match a.sell s p q with
      | .ok (a', _) => a'
      | .error _ => a
  | .settle => a.settle

/-- Run a sequence of ledger operations left to right. -/
def runOps (a : Account) : List LedgerOp → Account
  | [] => a
  | op :: rest => runOps (applyOp a op) rest

/-- Whether a single operation is accepted in the given state. -/
def opAccepted (a : Account) : LedgerOp → Bool
  | .buy s p q =>
      match a.buy s p q with
      | .ok _ => true
      | .error _ => false
  | .sell s p q =>
      match a.sell s p q with
      | .ok _ => true
      | .error _ => false
  | .settle => true

/-- Whether every operation of the sequence is accepted when run in order. -/
def opsAccepted : Account → List LedgerOp → Bool
  | _, [] => true
  | a, op :: rest => opAccepted a op && opsAccepted (applyOp a op) rest

/-- The per-position invariant of the spec: every position in the mapping has
`sellable ≤ total`. -/
def posInv (a : Account) : Prop :=
  ∀ s pos, alookup a.positions s = some pos → pos.sellable ≤ pos.total

/-- Order kind, the `type` field of engine.py's `Order` (line 12). -/
inductive OrderType
  | market
  | limit
deriving DecidableEq

/-- The `Order` value of engine.py (lines 6-19): direction, kind, optional
absolute share quantity, optional cash/position fraction, optional limit
price. -/
structure Order where
  action : OrderAction
  type : OrderType
  quantity : Option ℤ := none
  pct : Option ℚ := none
  price : Option ℚ := none
deriving DecidableEq

/-- The quantity taken from the `elif order.quantity:` fallthrough of
`_execute_order`: `quantity` stays 0 when the field is `None` or 0 (Python
truthiness). -/
def qtyFromOrder : Option ℤ → ℤ
  | some q => if q = 0 then 0 else q
  | none => 0

/-- BUY-side quantity resolution of `BacktestEngine._execute_order`
(engine.py lines 128-159).  `if order.pct:` is Python truthiness, so a 0.0
fraction falls through to `elif order.quantity:`.  The dead assignment
`quantity = get_max_buyable(...)` at line 134 (immediately overwritten at
lines 152-156) is elided.  At `execution_price = 0` the pct < 0.99 branch
divides by zero in Python; in ℚ the division yields 0 and hence quantity 0
(a no-op), a state no caller produces. -/
def resolveBuyQty (o : Order) (execution_price : ℚ) (a : Account) : ℤ :=
  match o.pct with
  | some pct =>
    if pct = 0 then qtyFromOrder o.quantity
    else if pct ≥ 99 / 100 then a.get_max_buyable execution_price
    else (pyInt (a.cash * pct / (execution_price * (1 + COMMISSION_RATE)))).fdiv 100 * 100
  | none => qtyFromOrder o.quantity

/-- SELL-side quantity resolution of `BacktestEngine._execute_order`
(engine.py lines 170-184): `current_pos` is the currently sellable quantity
of the symbol (0 if absent). -/
def resolveSellQty (o : Order) (current_pos : ℤ) : ℤ :=
  match o.pct with
  | some pct =>
    if pct = 0 then qtyFromOrder o.quantity
    else if pct ≥ 99 / 100 then current_pos
    else (pyInt ((current_pos : ℚ) * pct)).fdiv 100 * 100
  | none => qtyFromOrder o.quantity

/-- The body of `_execute_order` after the limit-admissibility gate
(engine.py lines 125-193): resolve a quantity, submit it to the ledger when
positive, drop the order silently when the ledger rejects it.  The returned
option models the append to `self.trades` (the engine tags the dict with the
execution date; the tag does not affect the ledger). -/
def executeOrderCore (o : Order) (symbol : String) (execution_price : ℚ) (a : Account) :
    Account × Option TradeDetails :=
  match o.action with
  | .BUY =>
    let quantity := resolveBuyQty o execution_price a
    if 0 < quantity then
      match a.buy symbol execution_price quantity with
      | .ok (a', d) => (a', some d)
      | .error _ => (a, none)
    else (a, none)
  | .SELL =>
    let current_pos := ((alookup a.positions symbol).map Position.sellable).getD 0
    let quantity := resolveSellQty o current_pos
    if 0 < quantity then
      match a.sell symbol execution_price quantity with
      | .ok (a', d) => (a', some d)
      | .error _ => (a, none)
    else (a, none)

/-- `BacktestEngine._execute_order` (engine.py lines 105-193).  A limit order
whose condition fails returns without touching the account (lines 117-120);
admissible limit orders fall through and fill at `execution_price`.  Python
compares against `order.price` directly (a `None` limit price would raise);
the model reads it through `getD 0`, and all limit-order theorems assume an
explicit limit price. -/
def executeOrder (o : Order) (symbol : String) (execution_price : ℚ) (a : Account) :
    Account × Option TradeDetails :=
  if o.type = .limit ∧ o.action = .BUY ∧ execution_price > o.price.getD 0 then (a, none)
  else if o.type = .limit ∧ o.action = .SELL ∧ execution_price < o.price.getD 0 then (a, none)
  else executeOrderCore o symbol execution_price a

/-- One daily bar of a price series (the `open`/`close` columns the backtest
core reads). -/
structure Bar where
  openPrice : ℚ
  closePrice : ℚ
deriving DecidableEq

/-- One row of `PortfolioRunner.daily_curves` (runner.py lines 166-172;
dates are modelled as naturals). -/
structure CurvePoint where
  date : ℕ
  total_assets : ℚ
  cash : ℚ
  holdings_symbol : Option String
  holdings_value : ℚ
deriving DecidableEq

/-- The mutable state of `PortfolioRunner.run` across loop iterations
(runner.py lines 50-54): the account, the trade log (each fill tagged with
its execution date), the valuation curve, and the cached current holding.
A stock dataframe is modelled as an association list date ↦ bar. -/
structure RunnerState where
  account : Account
  trades : List (ℕ × TradeDetails)
  daily_curves : List CurvePoint
  current_symbol : Option String
  current_stock_data : Option (List (ℕ × Bar))
deriving DecidableEq

/-- One iteration of the date loop of `PortfolioRunner.run` (runner.py lines
59-172): carry-forward on a non-trading day for the current holding,
otherwise settle, select, rotate (sell current, buy target) and revalue.
`selector.select(date)` and `data_loader.load_stock_data(symbol)` are the
two external collaborators, passed as functions.  Python indexes
`self.account.positions[self.current_symbol]` directly at line 105 (a
KeyError if absent); the model reads it through `getD 0` — unreachable
difference, since a held symbol always has a position entry. -/
def runnerStep (selector : ℕ → Option String)
    (load_stock_data : String → Option (List (ℕ × Bar)))
    (st : RunnerState) (date : ℕ) : RunnerState :=
  -- 1. data availability for the current holding
  let barOpt : Option Bar :=
    match st.current_symbol, st.current_stock_data with
    | some _, some df => alookup df date
    | _, _ => none
  let is_trading_day : Bool :=
    match st.current_symbol, st.current_stock_data with
    | some _, some df => (alookup df date).isSome
    | some _, none => false
    | none, _ => true
  if st.current_symbol.isSome && !is_trading_day then
    -- holding, but no bar today: repeat the last curve point with today's date
    match st.daily_curves.getLast? with
    | some last =>
        { st with daily_curves := st.daily_curves ++ [{ last with date := date }] }
    | none => st
  else
    -- 2. settle T+1
    let acct1 := st.account.settle
    -- 3. selection
    let target := selector date
    -- 4. execution logic
    let step4 : Account × List (ℕ × TradeDetails) × Option String ×
        Option (List (ℕ × Bar)) × Option String :=
      if st.current_symbol ≠ target then
        -- A. sell current (if any)
        let stepA : Account × List (ℕ × TradeDetails) × Option String ×
            Option (List (ℕ × Bar)) × Option String :=
          match st.current_symbol with
          | some s =>
            let current_open_price : Option ℚ := barOpt.map Bar.openPrice
            -- `if current_open_price:` — Python truthiness: None and 0.0 skip
            if current_open_price.getD 0 ≠ 0 then
              let sell_qty := ((alookup acct1.positions s).map Position.sellable).getD 0
              if 0 < sell_qty then
                match acct1.sell s (current_open_price.getD 0) sell_qty with
                | .ok (a', d) =>
                    (a', st.trades ++ [(date, d)], none, none, target)
                | .error _ =>
                    (acct1, st.trades, st.current_symbol, st.current_stock_data, target)
              else
                -- T+1 restriction: force hold
                (acct1, st.trades, st.current_symbol, st.current_stock_data,
                 st.current_symbol)
            else (acct1, st.trades, st.current_symbol, st.current_stock_data, target)
          | none => (acct1, st.trades, none, st.current_stock_data, target)
        let (acctA, tradesA, curSymA, curDataA, targetA) := stepA
        -- B. buy target (if any and valid)
        if targetA.isSome && decide (targetA ≠ curSymA) then
          let t := targetA.getD ""
          match load_stock_data t with
          | some tdata =>
            if tdata ≠ [] then
              match alookup tdata date with
              | some bar =>
                let max_qty := acctA.get_max_buyable bar.openPrice
                if 0 < max_qty then
                  match acctA.buy t bar.openPrice max_qty with
                  | .ok (a', d) =>
                      (a', tradesA ++ [(date, d)], some t, some tdata, targetA)
                  | .error _ => (acctA, tradesA, curSymA, curDataA, targetA)
                else (acctA, tradesA, curSymA, curDataA, targetA)
              | none => (acctA, tradesA, curSymA, curDataA, targetA)
            else (acctA, tradesA, curSymA, curDataA, targetA)
          | none => (acctA, tradesA, curSymA, curDataA, targetA)
        else stepA
      else (acct1, st.trades, st.current_symbol, st.current_stock_data, target)
    let (acct2, trades2, curSym2, curData2, _) := step4
    -- 5. valuation at today's close
    let current_prices : List (String × ℚ) :=
      match curSym2, curData2 with
      | some s, some df =>
        match alookup df date with
        | some bar => [(s, bar.closePrice)]
        | none => []
      | _, _ => []
    let acct3 := acct2.update_market_value current_prices
    { account := acct3
      trades := trades2
      daily_curves := st.daily_curves ++
        [⟨date, acct3.total_assets, acct3.cash, curSym2, acct3.total_assets - acct3.cash⟩]
      current_symbol := curSym2
      current_stock_data := curData2 }


/-! ## Helper lemmas -/

theorem alookup_nil {α β : Type} [DecidableEq α] (k : α) :
    alookup ([] : List (α × β)) k = none := rfl

theorem alookup_cons {α β : Type} [DecidableEq α] (kv : α × β) (rest : List (α × β))
    (k : α) :
    alookup (kv :: rest) k = if kv.1 = k then some kv.2 else alookup rest k := rfl

theorem alookup_append_left {α β : Type} [DecidableEq α] {l : List (α × β)}
    (m : List (α × β)) {k : α} {v : β} (h : alookup l k = some v) :
    alookup (l ++ m) k = some v := by
  induction l with
  | nil => rw [alookup_nil] at h; exact Option.noConfusion h
  | cons kv rest ih =>
    rw [alookup_cons] at h
    rw [List.cons_append, alookup_cons]
    by_cases hk : kv.1 = k
    · rwa [if_pos hk] at h ⊢
    · rw [if_neg hk] at h ⊢
      exact ih h

theorem alookup_append_right {α β : Type} [DecidableEq α] {l : List (α × β)}
    (m : List (α × β)) {k : α} (h : alookup l k = none) :
    alookup (l ++ m) k = alookup m k := by
  induction l with
  | nil => rw [List.nil_append]
  | cons kv rest ih =>
    rw [alookup_cons] at h
    rw [List.cons_append, alookup_cons]
    by_cases hk : kv.1 = k
    · rw [if_pos hk] at h; exact Option.noConfusion h
    · rw [if_neg hk] at h ⊢
      exact ih h

theorem alookup_amodify_self {α β : Type} [DecidableEq α] (l : List (α × β))
    (k : α) (f : β → β) :
    alookup (amodify l k f) k = (alookup l k).map f := by
  induction l with
  | nil => rfl
  | cons kv rest ih =>
    simp only [amodify, List.map_cons] at ih ⊢
    by_cases hk : kv.1 = k
    · rw [if_pos hk, alookup_cons, alookup_cons, if_pos hk, if_pos hk]
      rfl
    · rw [if_neg hk, alookup_cons, alookup_cons, if_neg hk, if_neg hk]
      exact ih

theorem alookup_amodify_ne {α β : Type} [DecidableEq α] (l : List (α × β))
    {k t : α} (f : β → β) (h : t ≠ k) :
    alookup (amodify l k f) t = alookup l t := by
  induction l with
  | nil => rfl
  | cons kv rest ih =>
    simp only [amodify, List.map_cons] at ih ⊢
    by_cases hk : kv.1 = k
    · have hkt : kv.1 ≠ t := by rw [hk]; exact Ne.symm h
      rw [if_pos hk, alookup_cons, alookup_cons, if_neg hkt, if_neg hkt]
      exact ih
    · by_cases ht : kv.1 = t
      · rw [if_neg hk, alookup_cons, alookup_cons, if_pos ht, if_pos ht]
      · rw [if_neg hk, alookup_cons, alookup_cons, if_neg ht, if_neg ht]
        exact ih

theorem alookup_aerase_self {α β : Type} [DecidableEq α] (l : List (α × β)) (k : α) :
    alookup (aerase l k) k = none := by
  induction l with
  | nil => rfl
  | cons kv rest ih =>
    by_cases hk : kv.1 = k
    · show alookup (List.filter _ (kv :: rest)) k = none
      rw [List.filter_cons]
      simp only [hk, ne_eq, not_true_eq_false, decide_False]
      exact ih
    · show alookup (List.filter _ (kv :: rest)) k = none
      rw [List.filter_cons]
      simp only [ne_eq, hk, not_false_eq_true, decide_True]
      simp only [if_true]
      rw [alookup_cons, if_neg hk]
      exact ih

theorem alookup_aerase_ne {α β : Type} [DecidableEq α] (l : List (α × β))
    {k t : α} (h : t ≠ k) :
    alookup (aerase l k) t = alookup l t := by
  induction l with
  | nil => rfl
  | cons kv rest ih =>
    by_cases hk : kv.1 = k
    · have hkt : kv.1 ≠ t := by rw [hk]; exact Ne.symm h
      show alookup (List.filter _ (kv :: rest)) t = _
      rw [List.filter_cons]
      simp only [hk, ne_eq, not_true_eq_false, decide_False]
      rw [alookup_cons, if_neg hkt]
      exact ih
    · show alookup (List.filter _ (kv :: rest)) t = _
      rw [List.filter_cons]
      simp only [ne_eq, hk, not_false_eq_true, decide_True]
      simp only [if_true]
      rw [alookup_cons, alookup_cons]
      by_cases ht : kv.1 = t
      · rw [if_pos ht, if_pos ht]
      · rw [if_neg ht, if_neg ht]
        exact ih

theorem alookup_mapVals {α β : Type} [DecidableEq α] (l : List (α × β))
    (f : β → β) (k : α) :
    alookup (l.map (fun kv => (kv.1, f kv.2))) k = (alookup l k).map f := by
  induction l with
  | nil => rfl
  | cons kv rest ih =>
    rw [List.map_cons, alookup_cons, alookup_cons]
    by_cases hk : kv.1 = k
    · rw [if_pos hk, if_pos hk]
      rfl
    · rw [if_neg hk, if_neg hk]
      exact ih

theorem pyInt_of_nonneg {x : ℚ} (h : 0 ≤ x) : pyInt x = ⌊x⌋ := by
  simp [pyInt, not_lt.mpr h]

theorem pyInt_nonpos_of_neg {x : ℚ} (h : x < 0) : pyInt x ≤ 0 := by
  simp only [pyInt, if_pos h, Left.neg_nonpos_iff]
  exact Int.floor_nonneg.mpr (by linarith)

theorem pyInt_cast_le {x : ℚ} (h : 0 ≤ x) : (pyInt x : ℚ) ≤ x := by
  rw [pyInt_of_nonneg h]
  exact Int.floor_le x

theorem nonneg_of_pyInt_pos {x : ℚ} (h : 0 < pyInt x) : 0 ≤ x := by
  by_contra hx
  push_neg at hx
  exact absurd h (not_lt.mpr (pyInt_nonpos_of_neg hx))

theorem fdiv_hundred_mul_le (m : ℤ) : m.fdiv 100 * 100 ≤ m := by
  rw [Int.fdiv_eq_ediv m (by norm_num)]
  omega

/-! ## Derived characterizations of buy and sell -/

theorem alookup_ensurePos_self {α : String} (ps : List (String × Position)) :
    alookup (ensurePos ps α) α = some ((alookup ps α).getD ⟨0, 0⟩) := by
  unfold ensurePos
  cases hl : alookup ps α with
  | none =>
    rw [alookup_append_right _ hl, alookup_cons, if_pos rfl]
    rfl
  | some pos => rw [hl]; rfl

theorem alookup_ensurePos_ne (ps : List (String × Position)) {s t : String}
    (ht : t ≠ s) : alookup (ensurePos ps s) t = alookup ps t := by
  unfold ensurePos
  cases hl : alookup ps s with
  | none =>
    cases hlt : alookup ps t with
    | none => rw [alookup_append_right _ hlt, alookup_cons, if_neg (Ne.symm ht)]; rfl
    | some w => rw [alookup_append_left _ hlt]
  | some pos => rfl

/-- Facts observable from a successful `Account.buy`: the guards that passed,
the exact cash debit, the position update at the bought symbol, frame
conditions elsewhere, and the returned fill. -/
theorem buy_ok_elim {a a' : Account} {s : String} {p : ℚ} {q : ℤ} {d : TradeDetails}
    (h : a.buy s p q = .ok (a', d)) :
    0 < q ∧ p * (q : ℚ) + get_commission (p * (q : ℚ)) ≤ a.cash ∧
    a'.cash = a.cash - (p * (q : ℚ) + get_commission (p * (q : ℚ))) ∧
    a'.initial_capital = a.initial_capital ∧
    a'.total_assets = a.total_assets ∧
    alookup a'.positions s =
      some ⟨((alookup a.positions s).getD ⟨0, 0⟩).total + q,
            ((alookup a.positions s).getD ⟨0, 0⟩).sellable⟩ ∧
    (∀ t, t ≠ s → alookup a'.positions t = alookup a.positions t) ∧
    d = ⟨s, .BUY, p, q, get_commission (p * (q : ℚ)), 0,
         p * (q : ℚ) + get_commission (p * (q : ℚ))⟩ := by
  simp only [Account.buy] at h
  split at h
  · exact Except.noConfusion h
  rename_i hq
  split at h
  · exact Except.noConfusion h
  rename_i hc
  rw [Except.ok.injEq, Prod.mk.injEq] at h
  obtain ⟨ha, hd⟩ := h
  subst ha
  subst hd
  refine ⟨lt_of_not_le hq, not_lt.mp hc, rfl, rfl, rfl, ?_, ?_, rfl⟩
  · simp only []
    rw [alookup_amodify_self, alookup_ensurePos_self]
    rfl
  · intro t ht
    simp only []
    rw [alookup_amodify_ne _ _ ht, alookup_ensurePos_ne _ ht]

/-- A buy whose guards pass succeeds. -/
theorem buy_ok_intro (a : Account) (s : String) (p : ℚ) {q : ℤ} (hq : 0 < q)
    (hc : p * (q : ℚ) + get_commission (p * (q : ℚ)) ≤ a.cash) :
    ∃ a' d, a.buy s p q = .ok (a', d) := by
  simp only [Account.buy]
  rw [if_neg (not_le.mpr hq), if_neg (not_lt.mpr hc)]
  exact ⟨_, _, rfl⟩

/-- Facts observable from a successful `Account.sell`: the guards that passed,
the exact cash credit, the position decrement with removal exactly at zero,
frame conditions elsewhere, and the returned fill. -/
theorem sell_ok_elim {a a' : Account} {s : String} {p : ℚ} {q : ℤ} {d : TradeDetails}
    (h : a.sell s p q = .ok (a', d)) :
    ∃ pos, alookup a.positions s = some pos ∧ 0 < q ∧ q ≤ pos.sellable ∧
      a'.cash = a.cash +
        (p * (q : ℚ) - get_commission (p * (q : ℚ)) - get_stamp_duty (p * (q : ℚ))) ∧
      a'.initial_capital = a.initial_capital ∧
      a'.total_assets = a.total_assets ∧
      (pos.total - q = 0 → alookup a'.positions s = none) ∧
      (¬pos.total - q = 0 →
        alookup a'.positions s = some ⟨pos.total - q, pos.sellable - q⟩) ∧
      (∀ t, t ≠ s → alookup a'.positions t = alookup a.positions t) ∧
      d = ⟨s, .SELL, p, q, get_commission (p * (q : ℚ)), get_stamp_duty (p * (q : ℚ)),
           p * (q : ℚ) - get_commission (p * (q : ℚ)) - get_stamp_duty (p * (q : ℚ))⟩ := by
  simp only [Account.sell] at h
  split at h
  · exact Except.noConfusion h
  rename_i hq
  split at h
  · exact Except.noConfusion h
  rename_i pos hl
  split at h
  · exact Except.noConfusion h
  rename_i hs
  rw [Except.ok.injEq, Prod.mk.injEq] at h
  obtain ⟨ha, hd⟩ := h
  subst ha
  subst hd
  refine ⟨pos, hl, lt_of_not_le hq, not_lt.mp hs, rfl, rfl, rfl, ?_, ?_, ?_, rfl⟩
  · intro hz
    simp only []
    rw [if_pos hz, alookup_aerase_self]
  · intro hz
    simp only []
    rw [if_neg hz, alookup_amodify_self, hl]
    rfl
  · intro t ht
    simp only []
    by_cases hz : pos.total - q = 0
    · rw [if_pos hz, alookup_aerase_ne _ ht, alookup_amodify_ne _ _ ht]
    · rw [if_neg hz, alookup_amodify_ne _ _ ht]

/-- A sell whose guards pass succeeds. -/
theorem sell_ok_intro (a : Account) (p : ℚ) {s : String} {pos : Position} {q : ℤ}
    (hq : 0 < q) (hl : alookup a.positions s = some pos) (hs : q ≤ pos.sellable) :
    ∃ a' d, a.sell s p q = .ok (a', d) := by
  simp only [Account.sell]
  rw [if_neg (not_le.mpr hq), hl]
  simp only []
  rw [if_neg (not_lt.mpr hs)]
  exact ⟨_, _, rfl⟩

deriving instance DecidableEq for Except

/-! ## Claim theorems -/

/-- C9: calling `settle()` twice in a row with no intervening buy or sell
yields the same state as calling it once, and after one settle every held
symbol has `sellable == total`. -/
theorem C9_settle_idempotent (a : Account) :
    a.settle.settle = a.settle ∧
    ∀ s pos, alookup a.settle.positions s = some pos → pos.sellable = pos.total := by
  constructor
  · unfold Account.settle
    rw [List.map_map]
    rfl
  · intro s pos h
    unfold Account.settle at h
    simp only [] at h
    have h' : (alookup a.positions s).map
        (fun p => (⟨p.total, p.total⟩ : Position)) = some pos :=
      (alookup_mapVals a.positions _ s).symm.trans h
    cases hl : alookup a.positions s with
    | none => rw [hl] at h'; exact Option.noConfusion h'
    | some p0 =>
      rw [hl, Option.map_some'] at h'
      cases Option.some.inj h'
      rfl

/-- Witness for C9 at a concrete ledger holding one partially settled
position. -/
theorem C9_settle_idempotent_witness :
    ((⟨1000, 400, [("A", ⟨100, 50⟩)], 1000⟩ : Account).settle.settle =
      (⟨1000, 400, [("A", ⟨100, 50⟩)], 1000⟩ : Account).settle) ∧
    (⟨100, 100⟩ : Position).sellable = (⟨100, 100⟩ : Position).total :=
  ⟨(C9_settle_idempotent _).1,
   (C9_settle_idempotent (⟨1000, 400, [("A", ⟨100, 50⟩)], 1000⟩ : Account)).2
     "A" ⟨100, 100⟩ (by decide)⟩

/-- C4 (amended): `commission(a) = max(a*COMMISSION_RATE, MIN_COMMISSION)`,
so `commission(a) ≥ MIN_COMMISSION` always and `commission(a) =
MIN_COMMISSION` exactly when `a*COMMISSION_RATE ≤ MIN_COMMISSION` (the
original claim's strict `<` fails at the boundary); `stamp_duty(a) =
a*STAMP_DUTY` and every buy fill carries zero stamp duty. -/
theorem C4_commission_spec (amt : ℚ) (h : 0 ≤ amt) :
    get_commission amt = max (amt * COMMISSION_RATE) MIN_COMMISSION ∧
    MIN_COMMISSION ≤ get_commission amt ∧
    (get_commission amt = MIN_COMMISSION ↔ amt * COMMISSION_RATE ≤ MIN_COMMISSION) ∧
    get_stamp_duty amt = amt * STAMP_DUTY ∧
    ∀ (a a' : Account) (s : String) (p : ℚ) (q : ℤ) (d : TradeDetails),
      a.buy s p q = .ok (a', d) → d.stamp_duty = 0 := by
  refine ⟨rfl, le_max_right _ _, ?_, rfl, ?_⟩
  · rw [get_commission, max_eq_right_iff]
  · intro a a' s p q d hb
    rw [(buy_ok_elim hb).2.2.2.2.2.2.2]

/-- Counterexample to C4 as stated: at the boundary amount `50000/3` the
commission equals `MIN_COMMISSION` although `amt * COMMISSION_RATE <
MIN_COMMISSION` is false (the product is exactly the minimum). -/
theorem C4_commission_counterexample :
    get_commission (50000 / 3) = MIN_COMMISSION ∧
    ¬(50000 / 3 * COMMISSION_RATE < MIN_COMMISSION) := by
  constructor
  · norm_num [get_commission, COMMISSION_RATE, MIN_COMMISSION]
  · norm_num [COMMISSION_RATE, MIN_COMMISSION]

/-- Witness for C4 at amount 10000 (scenario A's trade value). -/
theorem C4_commission_spec_witness :
    (0 : ℚ) ≤ 10000 ∧ MIN_COMMISSION ≤ get_commission 10000 :=
  ⟨by norm_num, (C4_commission_spec 10000 (by norm_num)).2.1⟩

/-- C2: `buy` fails with InvalidQuantity when quantity ≤ 0, fails with
InsufficientCash when trade value plus commission exceeds cash, and otherwise
succeeds, debiting cash by exactly trade value plus commission, incrementing
the symbol's total by the quantity, leaving its sellable unchanged, leaving
every other symbol alone, and returning the fill record. -/
theorem C2_buy_spec (a : Account) (s : String) (p : ℚ) (q : ℤ) :
    (q ≤ 0 → a.buy s p q = .error .invalidQuantity) ∧
    (0 < q → a.cash < p * (q : ℚ) + get_commission (p * (q : ℚ)) →
      a.buy s p q = .error .insufficientCash) ∧
    (0 < q → p * (q : ℚ) + get_commission (p * (q : ℚ)) ≤ a.cash →
      ∃ a' d, a.buy s p q = .ok (a', d) ∧
        a'.cash = a.cash - (p * (q : ℚ) + get_commission (p * (q : ℚ))) ∧
        alookup a'.positions s =
          some ⟨((alookup a.positions s).getD ⟨0, 0⟩).total + q,
                ((alookup a.positions s).getD ⟨0, 0⟩).sellable⟩ ∧
        (∀ t, t ≠ s → alookup a'.positions t = alookup a.positions t) ∧
        d = ⟨s, .BUY, p, q, get_commission (p * (q : ℚ)), 0,
             p * (q : ℚ) + get_commission (p * (q : ℚ))⟩) := by
  refine ⟨?_, ?_, ?_⟩
  · intro hq
    simp only [Account.buy]
    rw [if_pos hq]
  · intro hq hc
    simp only [Account.buy]
    rw [if_neg (not_le.mpr hq), if_pos hc]
  · intro hq hc
    obtain ⟨a', d, hb⟩ := buy_ok_intro a s p hq hc
    obtain ⟨-, -, h3, -, -, h6, h7, h8⟩ := buy_ok_elim hb
    exact ⟨a', d, hb, h3, h6, h7, h8⟩

/-- Witness for C2: an underfunded buy is rejected with InsufficientCash
(via the theorem), and scenario A of the spec evaluates as stated. -/
theorem C2_buy_spec_witness :
    (Account.init 3).buy "A" 10 100 = .error .insufficientCash ∧
    ∃ a' d, (Account.init 100000).buy "000001" 10 1000 = .ok (a', d) ∧
      a'.cash = 89995 ∧ alookup a'.positions "000001" = some ⟨1000, 0⟩ := by
  constructor
  · exact (C2_buy_spec (Account.init 3) "A" 10 100).2.1 (by decide)
      (by norm_num [Account.init, get_commission, COMMISSION_RATE, MIN_COMMISSION])
  · obtain ⟨a', d, hb, hcash, hpos, -, -⟩ :=
      (C2_buy_spec (Account.init 100000) "000001" 10 1000).2.2 (by decide)
        (by norm_num [Account.init, get_commission, COMMISSION_RATE, MIN_COMMISSION])
    refine ⟨a', d, hb, ?_, ?_⟩
    · rw [hcash]
      norm_num [Account.init, get_commission, COMMISSION_RATE, MIN_COMMISSION]
    · rw [hpos]
      decide

/-- C3 (amended): `sell` fails with InvalidQuantity when quantity ≤ 0 (a case
the original claim omits — it is checked before the position lookup);
otherwise fails with UnknownSymbol when no position exists, fails with
InsufficientSellable when quantity exceeds the sellable quantity, and
otherwise succeeds, crediting cash by the net proceeds, decrementing both
total and sellable, removing the symbol entry exactly when total reaches 0,
and returning the fill record. -/
theorem C3_sell_spec (a : Account) (s : String) (p : ℚ) (q : ℤ) :
    (q ≤ 0 → a.sell s p q = .error .invalidQuantity) ∧
    (0 < q → alookup a.positions s = none → a.sell s p q = .error .unknownSymbol) ∧
    (∀ pos, 0 < q → alookup a.positions s = some pos → pos.sellable < q →
      a.sell s p q = .error .insufficientSellable) ∧
    (∀ pos, 0 < q → alookup a.positions s = some pos → q ≤ pos.sellable →
      ∃ a' d, a.sell s p q = .ok (a', d) ∧
        a'.cash = a.cash +
          (p * (q : ℚ) - get_commission (p * (q : ℚ)) - get_stamp_duty (p * (q : ℚ))) ∧
        (pos.total - q = 0 → alookup a'.positions s = none) ∧
        (¬pos.total - q = 0 →
          alookup a'.positions s = some ⟨pos.total - q, pos.sellable - q⟩) ∧
        (∀ t, t ≠ s → alookup a'.positions t = alookup a.positions t) ∧
        d = ⟨s, .SELL, p, q, get_commission (p * (q : ℚ)), get_stamp_duty (p * (q : ℚ)),
             p * (q : ℚ) - get_commission (p * (q : ℚ)) - get_stamp_duty (p * (q : ℚ))⟩) := by
  refine ⟨?_, ?_, ?_, ?_⟩
  · intro hq
    simp only [Account.sell]
    rw [if_pos hq]
  · intro hq hl
    simp only [Account.sell]
    rw [if_neg (not_le.mpr hq), hl]
  · intro pos hq hl hlt
    simp only [Account.sell]
    rw [if_neg (not_le.mpr hq), hl]
    simp only []
    rw [if_pos hlt]
  · intro pos hq hl hs
    obtain ⟨a', d, hsell⟩ := sell_ok_intro a p hq hl hs
    obtain ⟨pos', hl', -, -, h5, -, -, h8, h9, h10, h11⟩ := sell_ok_elim hsell
    have hpp : pos' = pos := Option.some.inj (hl'.symm.trans hl)
    subst hpp
    exact ⟨a', d, hsell, h5, h8, h9, h10, h11⟩

/-- Counterexample to C3 as stated: with no position and quantity 0, the code
rejects with the quantity check, not with UnknownSymbol as the claim's case
split predicts. -/
theorem C3_sell_counterexample :
    (Account.init 100000).sell "A" 1 0 = .error .invalidQuantity ∧
    ¬(Account.init 100000).sell "A" 1 0 = .error .unknownSymbol := by
  constructor
  · decide
  · decide

/-- Witness for C3: scenario B (same-day sell blocked by T+1 sellable = 0,
via the theorem) and scenario C (full exit at 11.00 credits 10989.5 and
removes the entry). -/
theorem C3_sell_spec_witness :
    (⟨100000, 89995, [("000001", ⟨1000, 0⟩)], 100000⟩ : Account).sell "000001" 11 1000 =
      .error .insufficientSellable ∧
    ∃ a' d, (⟨100000, 89995, [("000001", ⟨1000, 1000⟩)], 100000⟩ : Account).sell
        "000001" 11 1000 = .ok (a', d) ∧
      a'.cash = 201969 / 2 ∧ alookup a'.positions "000001" = none := by
  constructor
  · exact (C3_sell_spec ⟨100000, 89995, [("000001", ⟨1000, 0⟩)], 100000⟩
      "000001" 11 1000).2.2.1 ⟨1000, 0⟩ (by decide) (by decide) (by decide)
  · obtain ⟨a', d, hs, hcash, hnone, -, -, -⟩ :=
      (C3_sell_spec ⟨100000, 89995, [("000001", ⟨1000, 1000⟩)], 100000⟩
        "000001" 11 1000).2.2.2 ⟨1000, 1000⟩ (by decide) (by decide) (by decide)
    refine ⟨a', d, hs, ?_, hnone (by decide)⟩
    rw [hcash]
    norm_num [get_commission, get_stamp_duty, COMMISSION_RATE, MIN_COMMISSION, STAMP_DUTY]

/-! ## Invariant preservation for C1 -/

theorem posInv_settle {a : Account} (inv : posInv a) : posInv a.settle := by
  intro s pos h
  unfold Account.settle at h
  simp only [] at h
  have h' : (alookup a.positions s).map
      (fun p => (⟨p.total, p.total⟩ : Position)) = some pos :=
    (alookup_mapVals a.positions _ s).symm.trans h
  cases hl : alookup a.positions s with
  | none => rw [hl] at h'; exact Option.noConfusion h'
  | some p0 =>
    rw [hl, Option.map_some'] at h'
    cases Option.some.inj h'
    exact le_refl _

theorem posInv_buy {a a' : Account} {s : String} {p : ℚ} {q : ℤ} {d : TradeDetails}
    (hb : a.buy s p q = .ok (a', d)) (inv : posInv a) : posInv a' := by
  obtain ⟨hq, -, -, -, -, h6, h7, -⟩ := buy_ok_elim hb
  intro t pos hl
  by_cases hts : t = s
  · subst hts
    rw [h6] at hl
    cases Option.some.inj hl
    cases hl0 : alookup a.positions t with
    | none =>
      show (0 : ℤ) ≤ 0 + q
      omega
    | some p0 =>
      show p0.sellable ≤ p0.total + q
      have := inv t p0 hl0
      omega
  · rw [h7 t hts] at hl
    exact inv t pos hl

theorem posInv_sell {a a' : Account} {s : String} {p : ℚ} {q : ℤ} {d : TradeDetails}
    (hs : a.sell s p q = .ok (a', d)) (inv : posInv a) : posInv a' := by
  obtain ⟨pos0, hl0, hq, hsell, -, -, -, h7, h8, h9, -⟩ := sell_ok_elim hs
  intro t pos hl
  by_cases hts : t = s
  · subst hts
    by_cases hz : pos0.total - q = 0
    · rw [h7 hz] at hl
      exact Option.noConfusion hl
    · rw [h8 hz] at hl
      cases Option.some.inj hl
      have := inv t pos0 hl0
      show pos0.sellable - q ≤ pos0.total - q
      omega
  · rw [h9 t hts] at hl
    exact inv t pos hl

theorem posInv_applyOp {a : Account} (op : LedgerOp) (inv : posInv a) :
    posInv (applyOp a op) := by
  cases op with
  | buy s p q =>
    simp only [applyOp]
    cases hb : a.buy s p q with
    | ok r =>
      obtain ⟨a', d⟩ := r
      exact posInv_buy hb inv
    | error e => exact inv
  | sell s p q =>
    simp only [applyOp]
    cases hs : a.sell s p q with
    | ok r =>
      obtain ⟨a', d⟩ := r
      exact posInv_sell hs inv
    | error e => exact inv
  | settle => exact posInv_settle inv

theorem posInv_runOps {a : Account} (ops : List LedgerOp) (inv : posInv a) :
    posInv (runOps a ops) := by
  induction ops generalizing a with
  | nil => exact inv
  | cons op rest ih => exact ih (posInv_applyOp op inv)

theorem cash_applyOp_nonneg {a : Account} {op : LedgerOp}
    (hns : op.isSell = false) (h0 : 0 ≤ a.cash) : 0 ≤ (applyOp a op).cash := by
  cases op with
  | buy s p q =>
    simp only [applyOp]
    cases hb : a.buy s p q with
    | ok r =>
      obtain ⟨a', d⟩ := r
      obtain ⟨-, hc, h3, -⟩ := buy_ok_elim hb
      show (0 : ℚ) ≤ a'.cash
      rw [h3]
      linarith
    | error e => exact h0
  | sell s p q => exact absurd hns (by simp [LedgerOp.isSell])
  | settle => exact h0

theorem cash_runOps_nonneg {a : Account} {ops : List LedgerOp}
    (hns : ∀ op ∈ ops, op.isSell = false) (h0 : 0 ≤ a.cash) :
    0 ≤ (runOps a ops).cash := by
  induction ops generalizing a with
  | nil => exact h0
  | cons op rest ih =>
    exact ih (fun o ho => hns o (List.mem_cons_of_mem _ ho))
      (cash_applyOp_nonneg (hns op (List.mem_cons_self _ _)) h0)

/-- C1 (amended): over every sequence of buy/sell/settle operations from a
non-negative initial capital, every position always satisfies
`sellable ≤ total`; and the cash balance stays non-negative over every
sequence of buys and settles — but not over sells: an accepted sell whose
fees exceed its trade value drives cash negative (see the counterexample). -/
theorem C1_ledger_invariant (init : ℚ) (ops : List LedgerOp) (h0 : 0 ≤ init) :
    posInv (runOps (Account.init init) ops) ∧
    ((∀ op ∈ ops, op.isSell = false) → 0 ≤ (runOps (Account.init init) ops).cash) := by
  constructor
  · exact posInv_runOps ops (fun s pos h => Option.noConfusion h)
  · intro hns
    exact cash_runOps_nonneg hns h0

/-- Counterexample to C1 as stated: from initial capital 6, buy 100 shares at
0.01 (cost 1 + minimum commission 5 = 6, accepted), settle, then sell all 100
at 0.01: net proceeds are 1 − 5 − 0.0005 < 0, so the accepted sell leaves the
cash balance negative. -/
theorem C1_cash_counterexample :
    opsAccepted (Account.init 6)
      [.buy "A" (1 / 100) 100, .settle, .sell "A" (1 / 100) 100] = true ∧
    (runOps (Account.init 6)
      [.buy "A" (1 / 100) 100, .settle, .sell "A" (1 / 100) 100]).cash < 0 := by
  constructor
  · norm_num [runOps, applyOp, opsAccepted, opAccepted, Account.init, Account.buy,
      Account.sell, Account.settle, get_commission, get_stamp_duty, ensurePos,
      amodify, aerase, alookup, COMMISSION_RATE, MIN_COMMISSION, STAMP_DUTY, max_def]
  · norm_num [runOps, applyOp, opsAccepted, opAccepted, Account.init, Account.buy,
      Account.sell, Account.settle, get_commission, get_stamp_duty, ensurePos,
      amodify, aerase, alookup, COMMISSION_RATE, MIN_COMMISSION, STAMP_DUTY, max_def]

/-- Witness for C1: a buy-then-settle run from capital 100000 keeps cash
non-negative and the position invariant. -/
theorem C1_ledger_invariant_witness :
    (0 : ℚ) ≤ 100000 ∧
    0 ≤ (runOps (Account.init 100000) [.buy "A" 10 100, .settle]).cash :=
  ⟨by norm_num,
   (C1_ledger_invariant 100000 [.buy "A" 10 100, .settle] (by norm_num)).2 (by decide)⟩

/-! ## Max-buyable characterization (C5, C10) -/

theorem floor_trunc_zero {x1 x2 : ℚ} (h : min ⌊x1⌋ ⌊x2⌋ < 0) :
    min (pyInt x1) (pyInt x2) ≤ 0 := by
  rcases min_lt_iff.mp h with hf | hf
  · refine le_trans (min_le_left _ _) (pyInt_nonpos_of_neg ?_)
    by_contra hx
    push_neg at hx
    exact absurd hf (not_lt.mpr (Int.floor_nonneg.mpr hx))
  · refine le_trans (min_le_right _ _) (pyInt_nonpos_of_neg ?_)
    by_contra hx
    push_neg at hx
    exact absurd hf (not_lt.mpr (Int.floor_nonneg.mpr hx))

/-- C5: `get_max_buyable` returns 0 when the price is non-positive or the
computed amount is negative, and otherwise the minimum of the no-floor
estimate `⌊cash/(p*(1+rate))⌋` and the floor-binding estimate
`⌊(cash - MIN_COMMISSION)/p⌋`, rounded down to a multiple of 100; for every
positive price the result is a multiple of 100.  (Python truncation and
mathematical flooring agree on every branch the code can take.) -/
theorem C5_get_max_buyable_spec (a : Account) (p : ℚ) :
    (p ≤ 0 → a.get_max_buyable p = 0) ∧
    (0 < p →
      (min ⌊a.cash / (p * (1 + COMMISSION_RATE))⌋ ⌊(a.cash - MIN_COMMISSION) / p⌋ < 0 →
        a.get_max_buyable p = 0) ∧
      (0 ≤ min ⌊a.cash / (p * (1 + COMMISSION_RATE))⌋ ⌊(a.cash - MIN_COMMISSION) / p⌋ →
        a.get_max_buyable p =
          (min ⌊a.cash / (p * (1 + COMMISSION_RATE))⌋
              ⌊(a.cash - MIN_COMMISSION) / p⌋).fdiv 100 * 100)) ∧
    (0 < p → (100 : ℤ) ∣ a.get_max_buyable p) := by
  refine ⟨?_, ?_, ?_⟩
  · intro hp
    simp only [Account.get_max_buyable]
    rw [if_pos hp]
  · intro hp
    constructor
    · intro hmin
      simp only [Account.get_max_buyable]
      rw [if_neg (not_le.mpr hp)]
      rcases lt_or_eq_of_le (floor_trunc_zero hmin) with hlt | heq
      · rw [if_pos hlt]
      · rw [if_neg (not_lt.mpr heq.ge), heq]
        decide
    · intro hmin
      obtain ⟨h1, h2⟩ := le_min_iff.mp hmin
      have hx1 : 0 ≤ a.cash / (p * (1 + COMMISSION_RATE)) := Int.floor_nonneg.mp h1
      have hx2 : 0 ≤ (a.cash - MIN_COMMISSION) / p := Int.floor_nonneg.mp h2
      simp only [Account.get_max_buyable]
      rw [if_neg (not_le.mpr hp), pyInt_of_nonneg hx1, pyInt_of_nonneg hx2,
        if_neg (not_lt.mpr hmin)]
  · intro hp
    simp only [Account.get_max_buyable]
    rw [if_neg (not_le.mpr hp)]
    split
    · exact dvd_zero _
    · exact ⟨_, mul_comm _ _⟩

/-- Witness for C5 at price 10 on a fresh 100000 ledger: both estimates are
non-negative, the result is the rounded minimum and a multiple of 100. -/
theorem C5_get_max_buyable_spec_witness :
    (0 : ℚ) < 10 ∧
    0 ≤ min ⌊(Account.init 100000).cash / (10 * (1 + COMMISSION_RATE))⌋
        ⌊((Account.init 100000).cash - MIN_COMMISSION) / 10⌋ ∧
    (Account.init 100000).get_max_buyable 10 =
      (min ⌊(Account.init 100000).cash / (10 * (1 + COMMISSION_RATE))⌋
          ⌊((Account.init 100000).cash - MIN_COMMISSION) / 10⌋).fdiv 100 * 100 ∧
    (100 : ℤ) ∣ (Account.init 100000).get_max_buyable 10 := by
  have hmin : 0 ≤ min ⌊(Account.init 100000).cash / (10 * (1 + COMMISSION_RATE))⌋
      ⌊((Account.init 100000).cash - MIN_COMMISSION) / 10⌋ := by
    norm_num [Account.init, COMMISSION_RATE, MIN_COMMISSION, min_def]
  exact ⟨by norm_num, hmin,
    ((C5_get_max_buyable_spec (Account.init 100000) 10).2.1 (by norm_num)).2 hmin,
    (C5_get_max_buyable_spec (Account.init 100000) 10).2.2 (by norm_num)⟩

/-- C10: whenever `get_max_buyable` returns a positive quantity, buying that
quantity at that price is affordable — trade value plus commission fits in
cash — so the buy succeeds and the InsufficientCash branch is unreachable on
the runner's buy-the-maximum path. -/
theorem C10_max_buyable_buy_succeeds (a : Account) (s : String) (p : ℚ)
    (hp : 0 < p) (hq : 0 < a.get_max_buyable p) :
    p * ((a.get_max_buyable p : ℤ) : ℚ) +
      get_commission (p * ((a.get_max_buyable p : ℤ) : ℚ)) ≤ a.cash ∧
    ∃ a' d, a.buy s p (a.get_max_buyable p) = .ok (a', d) := by
  have hdef : a.get_max_buyable p =
      if min (pyInt (a.cash / (p * (1 + COMMISSION_RATE))))
          (pyInt ((a.cash - MIN_COMMISSION) / p)) < 0 then 0
      else (min (pyInt (a.cash / (p * (1 + COMMISSION_RATE))))
          (pyInt ((a.cash - MIN_COMMISSION) / p))).fdiv 100 * 100 := by
    simp only [Account.get_max_buyable]
    rw [if_neg (not_le.mpr hp)]
  by_cases hm : min (pyInt (a.cash / (p * (1 + COMMISSION_RATE))))
      (pyInt ((a.cash - MIN_COMMISSION) / p)) < 0
  · rw [hdef, if_pos hm] at hq
    exact absurd hq (lt_irrefl 0)
  · have hq_eq : a.get_max_buyable p =
        (min (pyInt (a.cash / (p * (1 + COMMISSION_RATE))))
          (pyInt ((a.cash - MIN_COMMISSION) / p))).fdiv 100 * 100 := by
      rw [hdef, if_neg hm]
    have hq_le_m : a.get_max_buyable p ≤
        min (pyInt (a.cash / (p * (1 + COMMISSION_RATE))))
          (pyInt ((a.cash - MIN_COMMISSION) / p)) := by
      rw [hq_eq]
      exact fdiv_hundred_mul_le _
    have ht1 : 0 < pyInt (a.cash / (p * (1 + COMMISSION_RATE))) :=
      lt_of_lt_of_le (lt_of_lt_of_le hq hq_le_m) (min_le_left _ _)
    have ht2 : 0 < pyInt ((a.cash - MIN_COMMISSION) / p) :=
      lt_of_lt_of_le (lt_of_lt_of_le hq hq_le_m) (min_le_right _ _)
    have hx1 : 0 ≤ a.cash / (p * (1 + COMMISSION_RATE)) := nonneg_of_pyInt_pos ht1
    have hx2 : 0 ≤ (a.cash - MIN_COMMISSION) / p := nonneg_of_pyInt_pos ht2
    have hd1 : (0 : ℚ) < p * (1 + COMMISSION_RATE) := by
      have : (0 : ℚ) < 1 + COMMISSION_RATE := by norm_num [COMMISSION_RATE]
      exact mul_pos hp this
    have hcast1 : ((a.get_max_buyable p : ℤ) : ℚ) ≤ a.cash / (p * (1 + COMMISSION_RATE)) :=
      le_trans (Int.cast_le.mpr
        (le_trans hq_le_m (min_le_left _ _))) (pyInt_cast_le hx1)
    have hcast2 : ((a.get_max_buyable p : ℤ) : ℚ) ≤ (a.cash - MIN_COMMISSION) / p :=
      le_trans (Int.cast_le.mpr
        (le_trans hq_le_m (min_le_right _ _))) (pyInt_cast_le hx2)
    have hb1 : ((a.get_max_buyable p : ℤ) : ℚ) * (p * (1 + COMMISSION_RATE)) ≤ a.cash :=
      (le_div_iff₀ hd1).mp hcast1
    have hb2 : ((a.get_max_buyable p : ℤ) : ℚ) * p ≤ a.cash - MIN_COMMISSION :=
      (le_div_iff₀ hp).mp hcast2
    have hcost : p * ((a.get_max_buyable p : ℤ) : ℚ) +
        get_commission (p * ((a.get_max_buyable p : ℤ) : ℚ)) ≤ a.cash := by
      rw [get_commission]
      rcases max_cases (p * ((a.get_max_buyable p : ℤ) : ℚ) * COMMISSION_RATE)
          MIN_COMMISSION with ⟨hmx, -⟩ | ⟨hmx, -⟩
      · rw [hmx]
        nlinarith [hb1]
      · rw [hmx]
        linarith [hb2]
    exact ⟨hcost, buy_ok_intro a s p hq hcost⟩

/-- Witness for C10: on a fresh 100000 ledger at price 10 the maximum
buyable quantity is positive and the buy succeeds. -/
theorem C10_max_buyable_buy_succeeds_witness :
    (0 : ℚ) < 10 ∧ 0 < (Account.init 100000).get_max_buyable 10 ∧
    ∃ a' d, (Account.init 100000).buy "A" 10
      ((Account.init 100000).get_max_buyable 10) = .ok (a', d) := by
  have hgmb : 0 < (Account.init 100000).get_max_buyable 10 := by
    have h1 : (Account.init 100000).cash / (10 * (1 + COMMISSION_RATE)) =
        100000000 / 10003 := by
      norm_num [Account.init, COMMISSION_RATE]
    have h2 : ((Account.init 100000).cash - MIN_COMMISSION) / 10 = 19999 / 2 := by
      norm_num [Account.init, MIN_COMMISSION]
    simp only [Account.get_max_buyable, h1, h2, pyInt]
    norm_num [min_def]
    decide
  exact ⟨by norm_num, hgmb,
    (C10_max_buyable_buy_succeeds (Account.init 100000) "A" 10 (by norm_num) hgmb).2⟩

/-! ## Execution-model claims (C6, C7) -/

theorem buy_fill_price {a a' : Account} {s : String} {p : ℚ} {q : ℤ}
    {d : TradeDetails} (h : a.buy s p q = .ok (a', d)) : d.price = p := by
  rw [(buy_ok_elim h).2.2.2.2.2.2.2]

theorem sell_fill_price {a a' : Account} {s : String} {p : ℚ} {q : ℤ}
    {d : TradeDetails} (h : a.sell s p q = .ok (a', d)) : d.price = p := by
  obtain ⟨pos, -, -, -, -, -, -, -, -, -, hd⟩ := sell_ok_elim h
  rw [hd]

/-- C6 (amended): an inadmissible limit order — BUY with execution price above
the limit, SELL with execution price below it — is always a no-op (account
unchanged, no fill); and any order that does fill, fills at the execution
price, never at the limit price.  Admissibility alone does not guarantee a
fill (see the counterexample), so the original "exactly when" fails. -/
theorem C6_limit_admissibility (o : Order) (s : String) (ep : ℚ) (a : Account) :
    (o.type = .limit → o.action = .BUY → o.price.getD 0 < ep →
      executeOrder o s ep a = (a, none)) ∧
    (o.type = .limit → o.action = .SELL → ep < o.price.getD 0 →
      executeOrder o s ep a = (a, none)) ∧
    (∀ a' d, executeOrder o s ep a = (a', some d) → d.price = ep) := by
  refine ⟨?_, ?_, ?_⟩
  · intro hty hact hlt
    simp only [executeOrder]
    rw [if_pos ⟨hty, hact, hlt⟩]
  · intro hty hact hlt
    have hne : ¬(o.type = .limit ∧ o.action = .BUY ∧ ep > o.price.getD 0) := by
      rintro ⟨-, hb, -⟩
      rw [hact] at hb
      exact OrderAction.noConfusion hb
    simp only [executeOrder]
    rw [if_neg hne, if_pos ⟨hty, hact, hlt⟩]
  · intro a' d h
    simp only [executeOrder] at h
    split at h
    · injection h with h1 h2
      exact Option.noConfusion h2
    split at h
    · injection h with h1 h2
      exact Option.noConfusion h2
    simp only [executeOrderCore] at h
    split at h
    · -- BUY branch
      split at h
      · split at h
        · rename_i a2 d2 heq
          injection h with h1 h2
          rw [← Option.some.inj h2]
          exact buy_fill_price heq
        · injection h with h1 h2
          exact Option.noConfusion h2
      · injection h with h1 h2
        exact Option.noConfusion h2
    · -- SELL branch
      split at h
      · split at h
        · rename_i a2 d2 heq
          injection h with h1 h2
          rw [← Option.some.inj h2]
          exact sell_fill_price heq
        · injection h with h1 h2
          exact Option.noConfusion h2
      · injection h with h1 h2
        exact Option.noConfusion h2

/-- Counterexample to C6 as stated: a BUY limit order at limit 10 with
execution price 5 is admissible (5 ≤ 10), yet it is still a no-op because the
account cannot afford the buy — so "no-op exactly when execution_price >
limit_price" fails, and an admissible limit order need not be filled. -/
theorem C6_limit_counterexample :
    executeOrder ⟨.BUY, .limit, some 100, none, some 10⟩ "A" 5 (Account.init 0) =
      (Account.init 0, none) ∧
    ¬((5 : ℚ) > (10 : ℚ)) := by
  constructor
  · simp only [executeOrder, executeOrderCore, resolveBuyQty, qtyFromOrder]
    norm_num [Account.buy, Account.init, get_commission, COMMISSION_RATE,
      MIN_COMMISSION, max_def]
  · norm_num

/-- Witness for C6: a BUY limit at 10 facing execution price 20 is
inadmissible and leaves the account untouched with no fill. -/
theorem C6_limit_admissibility_witness :
    (⟨.BUY, .limit, some 100, none, some 10⟩ : Order).type = .limit ∧
    (⟨.BUY, .limit, some 100, none, some 10⟩ : Order).action = .BUY ∧
    (⟨.BUY, .limit, some 100, none, some 10⟩ : Order).price.getD 0 < (20 : ℚ) ∧
    executeOrder ⟨.BUY, .limit, some 100, none, some 10⟩ "A" 20 (Account.init 0) =
      (Account.init 0, none) :=
  ⟨rfl, rfl, by norm_num,
   (C6_limit_admissibility ⟨.BUY, .limit, some 100, none, some 10⟩ "A" 20
     (Account.init 0)).1 rfl rfl (by norm_num)⟩

/-- C7 (amended): a SELL order sized by a fraction ≥ 0.99 liquidates the
entire sellable quantity; when the position is fully settled (sellable =
total, as after the engine's daily `settle()`), this reduces total to exactly
0 and removes the symbol entry regardless of lot size.  When shares bought
the same day are still locked (sellable < total) a residue remains, so the
claim needs the sellable = total premise.  For a fraction < 0.99 the resolved
quantity is ⌊sellable·fraction⌋ rounded down to a multiple of 100. -/
theorem C7_sell_fraction (a : Account) (s : String) (pos : Position) (ep f : ℚ)
    (hl : alookup a.positions s = some pos) :
    (99 / 100 ≤ f → pos.sellable = pos.total → 0 < pos.total →
      alookup (executeOrder ⟨.SELL, .market, none, some f, none⟩ s ep a).1.positions s =
        none) ∧
    (0 < f → f < 99 / 100 → 0 ≤ pos.sellable →
      resolveSellQty ⟨.SELL, .market, none, some f, none⟩ pos.sellable =
        ⌊(pos.sellable : ℚ) * f⌋.fdiv 100 * 100) := by
  constructor
  · intro hf heq hpos
    have hf0 : ¬(f = (0 : ℚ)) := by
      intro h0
      rw [h0] at hf
      norm_num at hf
    have hq : 0 < pos.sellable := by
      rw [heq]
      exact hpos
    obtain ⟨a', d, hsell⟩ := sell_ok_intro a ep hq hl (le_refl _)
    obtain ⟨pos', hl', -, -, -, -, -, h7, -, -, -⟩ := sell_ok_elim hsell
    have hpp : pos' = pos := Option.some.inj (hl'.symm.trans hl)
    subst hpp
    have hz : pos'.total - pos'.sellable = 0 := by
      rw [heq]
      omega
    have hexec : executeOrder ⟨.SELL, .market, none, some f, none⟩ s ep a =
        (a', some d) := by
      simp only [executeOrder, executeOrderCore, resolveSellQty, qtyFromOrder]
      norm_num
      rw [hl]
      simp only [Option.map_some', Option.getD_some]
      rw [if_neg hf0, if_pos hf, if_pos hq, hsell]
      simp
    rw [hexec]
    exact h7 hz
  · intro h0 hlt hsn
    simp only [resolveSellQty]
    rw [if_neg (ne_of_gt h0), if_neg (not_le.mpr hlt)]
    rw [pyInt_of_nonneg (mul_nonneg (by exact_mod_cast hsn) (le_of_lt h0))]

/-- Counterexample to C7 as stated: holding total 200 with only 100 sellable
(100 bought today, still settlement-locked), a fraction-1.0 sell at price 10
sells the 100 sellable shares and leaves total 100 — the entry is not removed
and total is not 0. -/
theorem C7_sell_fraction_counterexample :
    (99 / 100 : ℚ) ≤ 1 ∧
    alookup (executeOrder ⟨.SELL, .market, none, some 1, none⟩ "A" 10
        (⟨1000, 0, [("A", ⟨200, 100⟩)], 1000⟩ : Account)).1.positions "A" =
      some ⟨100, 0⟩ := by
  constructor
  · norm_num
  · simp only [executeOrder, executeOrderCore, resolveSellQty, qtyFromOrder]
    norm_num [Account.sell, get_commission, get_stamp_duty, COMMISSION_RATE,
      MIN_COMMISSION, STAMP_DUTY, alookup, amodify, aerase, max_def]

/-- Witness for C7: a fully settled position of 150 shares (an odd lot) is
completely removed by a fraction-1.0 sell, and a 0.5-fraction sell of 1000
sellable shares resolves to 500 shares. -/
theorem C7_sell_fraction_witness :
    ((99 / 100 : ℚ) ≤ 1 ∧
      alookup (executeOrder ⟨.SELL, .market, none, some 1, none⟩ "A" 10
          (⟨1000, 0, [("A", ⟨150, 150⟩)], 1000⟩ : Account)).1.positions "A" = none) ∧
    ((0 : ℚ) < 1 / 2 ∧
      resolveSellQty ⟨.SELL, .market, none, some (1 / 2), none⟩
          (⟨2000, 1000⟩ : Position).sellable =
        ⌊(((⟨2000, 1000⟩ : Position).sellable : ℤ) : ℚ) * (1 / 2)⌋.fdiv 100 * 100) :=
  ⟨⟨by norm_num,
    (C7_sell_fraction (⟨1000, 0, [("A", ⟨150, 150⟩)], 1000⟩ : Account) "A"
      ⟨150, 150⟩ 10 1 (by decide)).1 (by norm_num) rfl (by decide)⟩,
   ⟨by norm_num,
    (C7_sell_fraction (⟨1000, 0, [("A", ⟨2000, 1000⟩)], 1000⟩ : Account) "A"
      ⟨2000, 1000⟩ 10 (1 / 2) (by decide)).2 (by norm_num) (by norm_num) (by decide)⟩⟩

/-! ## Portfolio-runner gap day (C8) -/

/-- C8: on a calendar date where the runner holds a symbol that has no bar,
the iteration appends a copy of the previous valuation snapshot with only the
date replaced, and changes nothing else: the account (cash, positions,
sellable quantities), the trade log and the cached holding are untouched —
settle, selection and execution do not run. -/
theorem C8_runner_gap_day (sel : ℕ → Option String)
    (load_stock_data : String → Option (List (ℕ × Bar))) (st : RunnerState)
    (date : ℕ) (s : String) (df : List (ℕ × Bar)) (cs : List CurvePoint)
    (last : CurvePoint)
    (hsym : st.current_symbol = some s)
    (hdata : st.current_stock_data = some df)
    (hbar : alookup df date = none)
    (hcurves : st.daily_curves = cs ++ [last]) :
    runnerStep sel load_stock_data st date =
      { st with daily_curves := st.daily_curves ++ [{ last with date := date }] } := by
  simp only [runnerStep, hsym, hdata, hbar, Option.isSome_some, Option.isSome_none,
    Bool.not_false, Bool.and_self, if_true]
  rw [hcurves, List.getLast?_concat]

/-- Witness for C8: a runner holding symbol "A" with an empty cached series
and one prior snapshot carries that snapshot forward on date 7. -/
theorem C8_runner_gap_day_witness :
    (⟨⟨100000, 500, [("A", ⟨100, 100⟩)], 100000⟩, [], [⟨6, 100000, 500, some "A", 99500⟩],
        some "A", some []⟩ : RunnerState).current_symbol = some "A" ∧
    alookup ([] : List (ℕ × Bar)) 7 = none ∧
    runnerStep (fun _ => none) (fun _ => none)
      ⟨⟨100000, 500, [("A", ⟨100, 100⟩)], 100000⟩, [], [⟨6, 100000, 500, some "A", 99500⟩],
        some "A", some []⟩ 7 =
      { (⟨⟨100000, 500, [("A", ⟨100, 100⟩)], 100000⟩, [],
          [⟨6, 100000, 500, some "A", 99500⟩], some "A", some []⟩ : RunnerState) with
        daily_curves := [⟨6, 100000, 500, some "A", 99500⟩,
          ⟨7, 100000, 500, some "A", 99500⟩] } :=
  ⟨rfl, rfl,
   C8_runner_gap_day (fun _ => none) (fun _ => none)
     ⟨⟨100000, 500, [("A", ⟨100, 100⟩)], 100000⟩, [], [⟨6, 100000, 500, some "A", 99500⟩],
       some "A", some []⟩ 7 "A" [] [] ⟨6, 100000, 500, some "A", 99500⟩
     rfl rfl rfl rfl⟩
